import Mathlib

set_option maxHeartbeats 1000000

/-!
Shallow embedding of the three maintenance scripts of the repository:
`cleanup_mainviewmodel.py`, `replace_artifact_panel.py` and `fix_mainview.py`.
Each script reads a file into a list of lines (or one string), locates
line regions by textual cues, and rewrites the file.  The embedding models
the line-oriented scanning and rewriting logic exactly; file I/O is modelled
by an `Outcome` value (the content written, or the exit code of an abort).
-/

namespace OrasDesktopScripts

/-- Characters treated as whitespace by Python's `str.strip` (ASCII subset:
space, tab, newline, carriage return, vertical tab, form feed). -/
def pyIsSpace (c : Char) : Bool :=
  c == ' ' || c == '\t' || c == '\n' || c == '\r' ||
    c == Char.ofNat 11 || c == Char.ofNat 12

/-- Python `str.strip()`: remove leading and trailing whitespace. -/
def pyStrip (s : String) : String :=
  String.mk (((s.toList.dropWhile pyIsSpace).reverse.dropWhile pyIsSpace).reverse)

/-- Contiguous-substring test on character lists: does the needle occur
contiguously somewhere in the haystack? -/
def containsSub : List Char → List Char → Bool
  | n, [] => n.isEmpty
  | n, c :: t => n.isPrefixOf (c :: t) || containsSub n t

/-- Python's `needle in hay` membership test on strings. -/
def pyIn (needle hay : String) : Bool :=
  containsSub needle.toList hay.toList

/-- Python `s.startswith(p)`. -/
def pyStartswith (p s : String) : Bool :=
  p.toList.isPrefixOf s.toList

/-- One method-removal rule of `cleanup_mainviewmodel.py` (sections 2 to 8).
`startStr` is the literal substring whose presence in a line starts the
region; `mname` is the method name excluded by the end predicate;
`allowPublic` is true for the rules (sections 7 and 8) whose end predicate
also accepts lines starting with `public `. -/
structure MethodRule where
  startStr : String
  mname : String
  allowPublic : Bool
deriving DecidableEq

/-- End predicate of the cleanup scanner, from the source:
`lines[i].strip().startswith('private ')` (for sections 7 and 8 also
`or lines[i].strip().startswith('public ')`) `and NAME not in lines[i]`. -/
def ruleEndPred (r : MethodRule) (line : String) : Bool :=
  (pyStartswith "private " (pyStrip line) ||
    (r.allowPublic && pyStartswith "public " (pyStrip line))) &&
  !(pyIn r.mname line)

/-- The scan loop of sections 2 to 8 of `cleanup_mainviewmodel.py`:
`for i in range(len(lines))` with an in-region flag.  A line containing
`startStr` (re)sets the region start to the current index; otherwise, once a
start is recorded, the first line satisfying the end predicate marks the
range `[start, i)` and breaks.  `rem` is the number of loop iterations left,
`i` the current index, `st` the recorded start (the in-region flag is
`st.isSome`).  If the loop finishes without the break, nothing is marked. -/
def scanGo (r : MethodRule) (lines : List String) : Nat → Nat → Option Nat → Option (Nat × Nat)
  | 0, _, _ => none
  | rem + 1, i, none =>
    if pyIn r.startStr (lines.getD i "") then scanGo r lines rem (i + 1) (some i)
    else scanGo r lines rem (i + 1) none
  | rem + 1, i, some s =>
    if pyIn r.startStr (lines.getD i "") then scanGo r lines rem (i + 1) (some i)
    else if ruleEndPred r (lines.getD i "") then some (s, i)
    else scanGo r lines rem (i + 1) (some s)

/-- Run one method-removal rule over the whole line list, returning the
resolved half-open range `[start, end)` or `none`. -/
def scanRule (r : MethodRule) (lines : List String) : Option (Nat × Nat) :=
  scanGo r lines lines.length 0 none

/-- Section 2: LoadReferrersAsync. -/
def rule2 : MethodRule :=
  ⟨"private async Task LoadReferrersAsync(", "LoadReferrersAsync", false⟩

/-- Section 3: DeleteManifestAsync. -/
def rule3 : MethodRule :=
  ⟨"private async Task DeleteManifestAsync()", "DeleteManifestAsync", false⟩

/-- Section 4: CopyReferenceWithTagAsync. -/
def rule4 : MethodRule :=
  ⟨"private async Task CopyReferenceWithTagAsync()", "CopyReferenceWithTagAsync", false⟩

/-- Section 5: CopyReferenceWithDigestAsync. -/
def rule5 : MethodRule :=
  ⟨"private async Task CopyReferenceWithDigestAsync()", "CopyReferenceWithDigestAsync", false⟩

/-- Section 6: ViewPlatformManifestAsync. -/
def rule6 : MethodRule :=
  ⟨"private async Task ViewPlatformManifestAsync(", "ViewPlatformManifestAsync", false⟩

/-- Section 7: UpdateReferrerNodeContextMenu (end predicate also accepts `public `). -/
def rule7 : MethodRule :=
  ⟨"private void UpdateReferrerNodeContextMenu()", "UpdateReferrerNodeContextMenu", true⟩

/-- Section 8: OnDigestManifestRequested (end predicate also accepts `public `). -/
def rule8 : MethodRule :=
  ⟨"private void OnDigestManifestRequested(object? sender", "OnDigestManifestRequested", true⟩

/-- The seven method-removal rules, sections 2 to 8 of the script. -/
def cleanupRules : List MethodRule :=
  [rule2, rule3, rule4, rule5, rule6, rule7, rule8]

/-- Section 1 cue: event handler subscription line for DigestContextMenu. -/
def digestSub : String := "DigestContextMenu.ManifestRequested +="

/-- Section 1 cue: event handler subscription line for ReferrerNodeContextMenu. -/
def referrerSub : String := "ReferrerNodeContextMenu.ManifestRequested +="

/-- Section 1 cue: comment line preceding the DigestContextMenu subscription. -/
def digestComment : String := "// Wire up DigestContextMenu"

/-- Section 1 cue: comment line preceding the ReferrerNodeContextMenu subscription. -/
def referrerComment : String := "// Wire up ReferrerNodeContextMenu"

/-- Membership of index `i` in the marks made by section 1 of
`cleanup_mainviewmodel.py`: a subscription line is marked, and the line
directly above a subscription line is also marked when it carries the
matching `// Wire up` comment (the `elif` makes the Referrer branch apply
only when the Digest cue is absent). -/
def markedSub (lines : List String) (i : Nat) : Bool :=
  let li := lines.getD i ""
  let ln := lines.getD (i + 1) ""
  pyIn digestSub li ||
    (!(pyIn digestSub li) && pyIn referrerSub li) ||
    (decide (i + 1 < lines.length) && pyIn digestSub ln && pyIn digestComment li) ||
    (decide (i + 1 < lines.length) && !(pyIn digestSub ln) && pyIn referrerSub ln &&
      pyIn referrerComment li)

/-- Membership of an index in a resolved half-open range. -/
def inRange (p : Option (Nat × Nat)) (i : Nat) : Bool :=
  match p with
  | some (s, e) => decide (s ≤ i) && decide (i < e)
  | none => false

/-- Membership of index `i` in the final `lines_to_remove` set of
`cleanup_mainviewmodel.py`: the union of the section 1 marks and the
ranges resolved by the seven method rules. -/
def marked (lines : List String) (i : Nat) : Bool :=
  markedSub lines i || cleanupRules.any (fun r => inRange (scanRule r lines) i)

/-- The rebuild step of `cleanup_mainviewmodel.py`:
`new_lines = [lines[i] for i in range(len(lines)) if i not in lines_to_remove]`. -/
def newLines (lines : List String) : List String :=
  ((List.range lines.length).filter (fun i => !marked lines i)).map
    (fun i => lines.getD i "")

/-- Number of distinct marked indices (the size of `lines_to_remove`). -/
def countMarked (lines : List String) : Nat :=
  ((List.range lines.length).filter (fun i => marked lines i)).length

/-- Result of a script run: either the content written back to the file, or
the exit code of an abort that happens before any write. -/
inductive Outcome where
  | written : List String → Outcome
  | exited : Nat → Outcome
deriving DecidableEq

/-- The whole `cleanup_mainviewmodel.py` run: the script has no failure
path; it always writes the rebuilt line list. -/
def cleanupRun (lines : List String) : Outcome :=
  Outcome.written (newLines lines)

/-- Start marker of `replace_artifact_panel.py`. -/
def startMarker : String := "<!-- Right side: Artifact Details Panel -->"

/-- End-comment marker of `replace_artifact_panel.py` (two inner spaces). -/
def rowMarker : String := "<!--  Row 2: Reference  -->"

/-- The five replacement lines inserted by `replace_artifact_panel.py`. -/
def raReplacement : List String :=
  ["      <!-- Right side: Artifact Details Panel -->\n",
   "      <views:ArtifactView\n",
   "        Grid.Column=\"1\"\n",
   "        Margin=\"0,10,10,0\"\n",
   "        DataContext=\"\x7bBinding Artifact\x7d\" />\n"]

/-- The marker-search loop of `replace_artifact_panel.py`: a line containing
the start marker (re)sets `start_line` to the current index; once
`start_line` is set, a line containing the row-2 comment at index `i > 60`
sets `end_line = i - 2` and breaks.  Returns the pair
`(start_line, end_line)` of optional indices. -/
def raGo (lines : List String) : Nat → Nat → Option Nat → Option Nat × Option Nat
  | 0, _, st => (st, none)
  | rem + 1, i, none =>
    if pyIn startMarker (lines.getD i "") then
      if pyIn rowMarker (lines.getD i "") && decide (60 < i) then (some i, some (i - 2))
      else raGo lines rem (i + 1) (some i)
    else raGo lines rem (i + 1) none
  | rem + 1, i, some s =>
    if pyIn startMarker (lines.getD i "") then
      if pyIn rowMarker (lines.getD i "") && decide (60 < i) then (some i, some (i - 2))
      else raGo lines rem (i + 1) (some i)
    else if pyIn rowMarker (lines.getD i "") && decide (60 < i) then (some s, some (i - 2))
    else raGo lines rem (i + 1) (some s)

/-- Run the marker search of `replace_artifact_panel.py` over the lines. -/
def raScan (lines : List String) : Option Nat × Option Nat :=
  raGo lines lines.length 0 none

/-- The splice of `replace_artifact_panel.py`: everything before
`start_line`, then the five replacement lines, then everything after
`end_line`. -/
def raOut (lines : List String) (s e : Nat) : List String :=
  lines.take s ++ raReplacement ++ lines.drop (e + 1)

/-- The whole `replace_artifact_panel.py` run: if either marker index is
missing the script prints a message and exits with status 1 before any
write; otherwise it writes the spliced lines. -/
def raRun (lines : List String) : Outcome :=
  match raScan lines with
  | (some s, some e) => Outcome.written (raOut lines s e)
  | _ => Outcome.exited 1

/-- The input lines at the indices not covered by the resolved range
`[s, t)`, in their original order (the untouched lines of a
`replace_artifact_panel.py` run). -/
def untouchedRa (lines : List String) (s t : Nat) : List String :=
  ((List.range lines.length).filter (fun i => !(decide (s ≤ i) && decide (i < t)))).map
    (fun i => lines.getD i "")

/-- Python's `re.sub` as used by `fix_mainview.py`, abstracted over the
regex engine: `find` reports whether (and where) the pattern matches the
content, `rewrite` is the substitution applied on a match.  Per the Python
library contract, `re.sub` returns the string unchanged when the pattern
finds no match. -/
def reSub (find : String → Option Nat) (rewriteFn : String → String)
    (content : String) : String :=
  match find content with
  | none => content
  | some _ => rewriteFn content

/-- The message printed by `fix_mainview.py` after writing. -/
def successMessage : String := "Replacement complete!"

/-- The whole `fix_mainview.py` run: apply the substitution, write the
result unconditionally, print the success message.  The pair is (content
written, message printed). -/
def fixMainviewRun (find : String → Option Nat) (rewriteFn : String → String)
    (content : String) : String × String :=
  (reSub find rewriteFn content, successMessage)

/-- Input whose LoadReferrersAsync start line is found but no later line
satisfies the end predicate. -/
def exNoEnd : List String :=
  ["private async Task LoadReferrersAsync(x)", "  body"]

/-- Input on which the LoadReferrersAsync range and the DeleteManifestAsync
range overlap: the DeleteManifestAsync start string occurs inside the
LoadReferrersAsync region on a line that does not look like a declaration. -/
def exOverlap : List String :=
  ["private async Task LoadReferrersAsync(x)",
   "  a",
   "  xx private async Task DeleteManifestAsync() yy",
   "  b",
   "private void Next()"]

/-- Input containing the LoadReferrersAsync start string on two lines: the
scanner resets its start to the second occurrence, so the first occurrence
is never marked. -/
def exTwice : List String :=
  ["private async Task LoadReferrersAsync(A)",
   "  body",
   "private async Task LoadReferrersAsync(B)",
   "private void Other()"]

/-- Input with exactly one LoadReferrersAsync start line and a terminating
sibling declaration. -/
def exUnique : List String :=
  ["private async Task LoadReferrersAsync(x)", "  a", "private void Other()"]

/-- Replace-script input whose start marker sits at index 61 and whose row-2
comment sits at index 62: the resolved end `62 - 2 = 60` does not exceed the
start. -/
def exRaBad : List String :=
  List.replicate 61 "x" ++ [startMarker, rowMarker]

/-- Replace-script input whose single line at index 61 carries both markers:
the resolved range has `end_line = 59 < 61 = start_line` and the splice
duplicates line 60. -/
def exRaDup : List String :=
  List.replicate 61 "x" ++ [startMarker ++ " " ++ rowMarker]

/-- Well-behaved replace-script input: start marker at index 0, row-2
comment at index 61. -/
def exRaGood : List String :=
  [startMarker] ++ List.replicate 60 "x" ++ [rowMarker]

/-- Replace-script input whose row-2 comment appears only at index 1, which
is not greater than 60. -/
def exRaEarly : List String :=
  [startMarker, rowMarker]

/-- Master lemma of the cleanup scanner loop: if `scanGo` marks a range
`(s, e)` and the stored state is sound (the stored start is behind the
cursor, holds the start cue, and no line strictly between it and the cursor
satisfies the end predicate), then `s < e`, `e` is below the loop bound,
line `s` holds the start cue, line `e` is the first line after `s`
satisfying the end predicate. -/
theorem scanGo_spec (r : MethodRule) (lines : List String) :
    ∀ rem i st s e,
      scanGo r lines rem i st = some (s, e) →
      (∀ s0, st = some s0 → s0 < i ∧ pyIn r.startStr (lines.getD s0 "") = true ∧
        ∀ j, s0 < j → j < i → ruleEndPred r (lines.getD j "") = false) →
      s < e ∧ e < i + rem ∧ pyIn r.startStr (lines.getD s "") = true ∧
        ruleEndPred r (lines.getD e "") = true ∧
        ∀ j, s < j → j < e → ruleEndPred r (lines.getD j "") = false := by
  intro rem
  induction rem with
  | zero =>
    intro i st s e h _
    cases st <;> simp [scanGo] at h
  | succ n ih =>
    intro i st s e h hinv
    cases st with
    | none =>
      rw [scanGo] at h
      by_cases hstart : pyIn r.startStr (lines.getD i "") = true
      · rw [if_pos hstart] at h
        obtain ⟨h1, h2, h3, h4, h5⟩ := ih (i + 1) (some i) s e h (by
          intro s0 hs0
          cases hs0
          exact ⟨Nat.lt_succ_self i, hstart, fun j hj1 hj2 => absurd hj1 (by omega)⟩)
        exact ⟨h1, by omega, h3, h4, h5⟩
      · rw [if_neg hstart] at h
        obtain ⟨h1, h2, h3, h4, h5⟩ := ih (i + 1) none s e h (by intro s0 hs0; cases hs0)
        exact ⟨h1, by omega, h3, h4, h5⟩
    | some s0 =>
      obtain ⟨hlt, hpy, hmid⟩ := hinv s0 rfl
      rw [scanGo] at h
      by_cases hstart : pyIn r.startStr (lines.getD i "") = true
      · rw [if_pos hstart] at h
        obtain ⟨h1, h2, h3, h4, h5⟩ := ih (i + 1) (some i) s e h (by
          intro s1 hs1
          cases hs1
          exact ⟨Nat.lt_succ_self i, hstart, fun j hj1 hj2 => absurd hj1 (by omega)⟩)
        exact ⟨h1, by omega, h3, h4, h5⟩
      · rw [if_neg hstart] at h
        by_cases hend : ruleEndPred r (lines.getD i "") = true
        · rw [if_pos hend] at h
          cases h
          exact ⟨hlt, by omega, hpy, hend, hmid⟩
        · rw [if_neg hend] at h
          obtain ⟨h1, h2, h3, h4, h5⟩ := ih (i + 1) (some s0) s e h (by
            intro s1 hs1
            cases hs1
            refine ⟨by omega, hpy, ?_⟩
            intro j hj1 hj2
            rcases Nat.lt_or_ge j i with hji | hji
            · exact hmid j hj1 hji
            · have hje : j = i := by omega
              subst hje
              exact Bool.eq_false_iff.mpr hend)
          exact ⟨h1, by omega, h3, h4, h5⟩

/-- A resolved range of the cleanup scanner satisfies `s < e < len`, its
start line holds the start cue, its end line is the first one after the
start satisfying the end predicate. -/
theorem scanRule_spec (r : MethodRule) (lines : List String) (s e : Nat)
    (h : scanRule r lines = some (s, e)) :
    s < e ∧ e < lines.length ∧ pyIn r.startStr (lines.getD s "") = true ∧
      ruleEndPred r (lines.getD e "") = true ∧
      ∀ j, s < j → j < e → ruleEndPred r (lines.getD j "") = false := by
  have := scanGo_spec r lines lines.length 0 none s e h (by intro s0 hs0; cases hs0)
  simpa using this

/-- If no line of the remainder holds the start cue, a scan started with no
recorded start marks nothing. -/
theorem scanGo_none_of_noStart (r : MethodRule) (lines : List String) :
    ∀ rem i, i + rem ≤ lines.length →
      (∀ j, j < lines.length → pyIn r.startStr (lines.getD j "") = false) →
      scanGo r lines rem i none = none := by
  intro rem
  induction rem with
  | zero => intro i _ _; rw [scanGo]
  | succ n ih =>
    intro i hb hno
    rw [scanGo]
    rw [if_neg (by rw [hno i (by omega)]; exact Bool.false_ne_true)]
    exact ih (i + 1) (by omega) hno

/-- If no line of the remainder satisfies the end predicate, a scan that is
inside a region marks nothing: the loop runs out of input. -/
theorem scanGo_none_of_noEnd (r : MethodRule) (lines : List String) :
    ∀ rem i s, (∀ j, i ≤ j → j < i + rem → ruleEndPred r (lines.getD j "") = false) →
      scanGo r lines rem i (some s) = none := by
  intro rem
  induction rem with
  | zero => intro i s _; rw [scanGo]
  | succ n ih =>
    intro i s hno
    rw [scanGo]
    by_cases hstart : pyIn r.startStr (lines.getD i "") = true
    · rw [if_pos hstart]
      exact ih (i + 1) i (fun j hj1 hj2 => hno j (by omega) (by omega))
    · rw [if_neg hstart]
      rw [if_neg (by rw [hno i (by omega) (by omega)]; exact Bool.false_ne_true)]
      exact ih (i + 1) s (fun j hj1 hj2 => hno j (by omega) (by omega))

/-- If the first line holding the start cue is `s0` and no later line
satisfies the end predicate, the rule resolves no range at all. -/
theorem scanRule_none_of_noEndAfter (r : MethodRule) (lines : List String) (s0 : Nat)
    (h0 : s0 < lines.length)
    (hs : pyIn r.startStr (lines.getD s0 "") = true)
    (hfirst : ∀ j, j < s0 → pyIn r.startStr (lines.getD j "") = false)
    (hnoend : ∀ j, s0 < j → j < lines.length → ruleEndPred r (lines.getD j "") = false) :
    scanRule r lines = none := by
  have aux : ∀ rem i, i + rem = lines.length → i ≤ s0 → scanGo r lines rem i none = none := by
    intro rem
    induction rem with
    | zero => intro i _ _; rw [scanGo]
    | succ n ih =>
      intro i hb hi
      rw [scanGo]
      rcases Nat.lt_or_ge i s0 with hlt | hge
      · rw [if_neg (by rw [hfirst i hlt]; exact Bool.false_ne_true)]
        exact ih (i + 1) (by omega) (by omega)
      · have hie : i = s0 := by omega
        subst hie
        rw [if_pos hs]
        exact scanGo_none_of_noEnd r lines n (i + 1) i
          (fun j hj1 hj2 => hnoend j (by omega) (by omega))
  exact aux lines.length 0 (by omega) (by omega)

/-- Master lemma of the replace-script marker search: when both indices come
back resolved, the start index is a real line index, the exclusive end
`e + 1` lies strictly inside the line list, and `e` is at least 59
(the hit index is above 60 and `e` is that index minus 2). -/
theorem raGo_spec (lines : List String) :
    ∀ rem i st s e,
      raGo lines rem i st = (some s, some e) →
      i + rem = lines.length →
      (∀ s0, st = some s0 → s0 < i) →
      s < lines.length ∧ e + 1 < lines.length ∧ 59 ≤ e := by
  intro rem
  induction rem with
  | zero =>
    intro i st s e h _ _
    rw [raGo] at h
    simp at h
  | succ n ih =>
    intro i st s e h hb hinv
    cases st with
    | none =>
      rw [raGo] at h
      by_cases hstart : pyIn startMarker (lines.getD i "") = true
      · rw [if_pos hstart] at h
        by_cases hhit : (pyIn rowMarker (lines.getD i "") && decide (60 < i)) = true
        · rw [if_pos hhit] at h
          simp only [Prod.mk.injEq, Option.some.injEq] at h
          obtain ⟨hs2, he2⟩ := h
          have h60 : 60 < i := of_decide_eq_true ((Bool.and_eq_true ..).mp hhit).2
          omega
        · rw [if_neg hhit] at h
          exact ih (i + 1) (some i) s e h (by omega) (by intro s0 hs0; cases hs0; omega)
      · rw [if_neg hstart] at h
        exact ih (i + 1) none s e h (by omega) (by intro s0 hs0; cases hs0)
    | some s1 =>
      have hs1 : s1 < i := hinv s1 rfl
      rw [raGo] at h
      by_cases hstart : pyIn startMarker (lines.getD i "") = true
      · rw [if_pos hstart] at h
        by_cases hhit : (pyIn rowMarker (lines.getD i "") && decide (60 < i)) = true
        · rw [if_pos hhit] at h
          simp only [Prod.mk.injEq, Option.some.injEq] at h
          obtain ⟨hs2, he2⟩ := h
          have h60 : 60 < i := of_decide_eq_true ((Bool.and_eq_true ..).mp hhit).2
          omega
        · rw [if_neg hhit] at h
          exact ih (i + 1) (some i) s e h (by omega) (by intro s0 hs0; cases hs0; omega)
      · rw [if_neg hstart] at h
        by_cases hhit : (pyIn rowMarker (lines.getD i "") && decide (60 < i)) = true
        · rw [if_pos hhit] at h
          simp only [Prod.mk.injEq, Option.some.injEq] at h
          obtain ⟨hs2, he2⟩ := h
          have h60 : 60 < i := of_decide_eq_true ((Bool.and_eq_true ..).mp hhit).2
          omega
        · rw [if_neg hhit] at h
          exact ih (i + 1) (some s1) s e h (by omega) (by intro s0 hs0; cases hs0; omega)

/-- Bounds for a successful replace-script marker search. -/
theorem raScan_spec (lines : List String) (s e : Nat)
    (h : raScan lines = (some s, some e)) :
    s < lines.length ∧ e + 1 < lines.length ∧ 59 ≤ e :=
  raGo_spec lines lines.length 0 none s e h (by omega) (by intro s0 hs0; cases hs0)

/-- If every line carrying the row-2 comment sits at an index not above 60,
the marker search never resolves an end index. -/
theorem raGo_end_none (lines : List String) :
    ∀ rem i st, (∀ j, pyIn rowMarker (lines.getD j "") = true → ¬60 < j) →
      (raGo lines rem i st).2 = none := by
  intro rem
  induction rem with
  | zero => intro i st _; rw [raGo]
  | succ n ih =>
    intro i st hrow
    have hhit : (pyIn rowMarker (lines.getD i "") && decide (60 < i)) = false := by
      by_cases hr : pyIn rowMarker (lines.getD i "") = true
      · rw [hr, Bool.true_and]
        exact decide_eq_false (hrow i hr)
      · rw [Bool.eq_false_iff.mpr hr, Bool.false_and]
    have hhit' : ¬((pyIn rowMarker (lines.getD i "") && decide (60 < i)) = true) := by
      rw [hhit]; exact Bool.false_ne_true
    cases st with
    | none =>
      rw [raGo]
      by_cases hstart : pyIn startMarker (lines.getD i "") = true
      · rw [if_pos hstart, if_neg hhit']
        exact ih (i + 1) (some i) hrow
      · rw [if_neg hstart]
        exact ih (i + 1) none hrow
    | some s1 =>
      rw [raGo]
      by_cases hstart : pyIn startMarker (lines.getD i "") = true
      · rw [if_pos hstart, if_neg hhit']
        exact ih (i + 1) (some i) hrow
      · rw [if_neg hstart, if_neg hhit']
        exact ih (i + 1) (some s1) hrow

/-- Splitting a filtered index walk over `[0, len)`: mapping `getD` over the
indices outside `[s, t)` yields the prefix before `s` followed by the suffix
from `max s t` on. -/
theorem splitMap (d : String) :
    ∀ (l : List String) (s t : Nat),
      ((List.range l.length).filter (fun i => !(decide (s ≤ i) && decide (i < t)))).map
        (fun i => l.getD i d) = l.take s ++ l.drop (max s t) := by
  intro l
  induction l with
  | nil => intro s t; simp
  | cons x xs ih =>
    intro s t
    have hshift :
        (List.filter (fun i => !(decide (s ≤ i) && decide (i < t)))
            (List.map Nat.succ (List.range xs.length))).map
          (fun i => (x :: xs).getD i d) =
        ((List.range xs.length).filter
            (fun i => !(decide (s - 1 ≤ i) && decide (i < t - 1)))).map
          (fun i => xs.getD i d) := by
      rw [List.filter_map, List.map_map]
      have hpred : ∀ i ∈ List.range xs.length,
          ((fun i => !(decide (s ≤ i) && decide (i < t))) ∘ Nat.succ) i =
            (fun i => !(decide (s - 1 ≤ i) && decide (i < t - 1))) i := by
        intro i _
        have h1 : decide (s ≤ i + 1) = decide (s - 1 ≤ i) := by
          simp only [decide_eq_decide]; omega
        have h2 : decide (i + 1 < t) = decide (i < t - 1) := by
          simp only [decide_eq_decide]; omega
        simp only [Function.comp_apply, Nat.succ_eq_add_one, h1, h2]
      rw [List.filter_congr hpred]
      exact List.map_congr_left (by intro i _; rfl)
    rw [List.length_cons, List.range_succ_eq_map, List.filter_cons]
    rcases s with _ | s'
    · rcases t with _ | t'
      · rw [if_pos (by decide)]
        rw [List.map_cons, hshift]
        simp only [Nat.zero_sub]
        rw [ih 0 0]
        simp
      · rw [if_neg (by simp)]
        rw [hshift]
        simp only [Nat.zero_sub, Nat.add_sub_cancel]
        rw [ih 0 t']
        simp
    · rw [if_pos (by simp)]
      rw [List.map_cons, hshift]
      simp only [Nat.add_sub_cancel]
      rw [ih s' (t - 1)]
      have hmax : max (s' + 1) t = max s' (t - 1) + 1 := by omega
      rw [List.take_succ_cons, hmax, List.drop_succ_cons, List.getD_cons_zero,
        List.cons_append]

/-- Mapping `getD` over all indices of a list reproduces the list. -/
theorem mapRange (d : String) (l : List String) :
    (List.range l.length).map (fun i => l.getD i d) = l := by
  have h := splitMap d l l.length 0
  rw [List.filter_eq_self.mpr (by intro i _; simp)] at h
  simpa using h

/-- The lengths of the kept and dropped parts of a filter partition a list. -/
theorem filter_length_partition (p q : Nat → Bool) (hpq : ∀ i, q i = !p i) (l : List Nat) :
    (l.filter p).length + (l.filter q).length = l.length := by
  induction l with
  | nil => simp
  | cons a l ih =>
    cases h : p a <;> simp [List.filter_cons, h, hpq] <;> omega

/-- Every index inside a range resolved by one of the seven cleanup rules is
in the removal set. -/
theorem marked_of_inRange {lines : List String} {r : MethodRule} {s e i : Nat}
    (hr : r ∈ cleanupRules) (hscan : scanRule r lines = some (s, e))
    (h1 : s ≤ i) (h2 : i < e) : marked lines i = true := by
  have : cleanupRules.any (fun q => inRange (scanRule q lines) i) = true := by
    rw [List.any_eq_true]
    refine ⟨r, hr, ?_⟩
    rw [hscan]
    simp [inRange, h1, h2]
  unfold marked
  rw [this, Bool.or_true]

/-- C1 counterexample: on `exNoEnd` the LoadReferrersAsync start cue is
found at index 0 and the only later line does not satisfy the end predicate,
yet the run raises no error and does not abort: the output file is written
(here with the input content unchanged), contrary to the claim that such a
run fails with an EndNotFound error before any write. -/
theorem claim1_counterexample :
    pyIn rule2.startStr (exNoEnd.getD 0 "") = true ∧
      ruleEndPred rule2 (exNoEnd.getD 1 "") = false ∧
      exNoEnd.length = 2 ∧
      scanRule rule2 exNoEnd = none ∧
      cleanupRun exNoEnd = Outcome.written exNoEnd :=
  ⟨by decide, by decide, by decide, by decide, by decide⟩

/-- C1 (amended): if, after the first line holding the start cue, no
subsequent line satisfies the end predicate before the input is exhausted,
the construct's range is simply not resolved — no line of it is marked, so
end-of-input is never treated as the region terminator and no partial edit
of the construct occurs — but the run does not fail: the rebuilt output is
still written. -/
theorem claim1_amended_thm (r : MethodRule) (lines : List String) (s0 : Nat)
    (h0 : s0 < lines.length)
    (hs : pyIn r.startStr (lines.getD s0 "") = true)
    (hfirst : ∀ j, j < s0 → pyIn r.startStr (lines.getD j "") = false)
    (hnoend : ∀ j, s0 < j → j < lines.length → ruleEndPred r (lines.getD j "") = false) :
    scanRule r lines = none ∧ cleanupRun lines = Outcome.written (newLines lines) :=
  ⟨scanRule_none_of_noEndAfter r lines s0 h0 hs hfirst hnoend, rfl⟩

/-- Witness for C1 (amended) at the concrete input `exNoEnd`. -/
theorem claim1_witness :
    (0 < exNoEnd.length ∧ pyIn rule2.startStr (exNoEnd.getD 0 "") = true) ∧
      scanRule rule2 exNoEnd = none ∧
      cleanupRun exNoEnd = Outcome.written (newLines exNoEnd) :=
  ⟨⟨by decide, by decide⟩,
    claim1_amended_thm rule2 exNoEnd 0 (by decide) (by decide)
      (fun j hj => absurd hj (by omega))
      (fun j hj1 hj2 => by
        have hl : exNoEnd.length = 2 := by decide
        rw [hl] at hj2
        have hj : j = 1 := by omega
        subst hj
        decide)⟩

/-- C2 counterexample: on `exOverlap` the LoadReferrersAsync rule resolves
the range `[0, 4)` and the DeleteManifestAsync rule resolves `[2, 4)`; the
two ranges overlap (index 2 lies in both), yet the run does not fail before
writing: the output file is written with the union of the ranges removed. -/
theorem claim2_counterexample :
    scanRule rule2 exOverlap = some (0, 4) ∧
      scanRule rule3 exOverlap = some (2, 4) ∧
      ((0 ≤ 2 ∧ 2 < 4) ∧ (2 ≤ 2 ∧ 2 < 4)) ∧
      cleanupRun exOverlap = Outcome.written ["private void Next()"] :=
  ⟨by decide, by decide, ⟨⟨by omega, by omega⟩, ⟨by omega, by omega⟩⟩, by decide⟩

/-- C2 (amended): no overlap validation exists.  Resolved ranges are
accumulated into one set of line indices, so when two resolved ranges
overlap the run does not fail: every index of either range is in the removal
set (the ranges are silently merged) and the output file is still written. -/
theorem claim2_amended_thm (lines : List String) (r q : MethodRule) (s e s2 e2 : Nat)
    (hr : r ∈ cleanupRules) (hq : q ∈ cleanupRules)
    (hscr : scanRule r lines = some (s, e)) (hscq : scanRule q lines = some (s2, e2)) :
    (∀ i, (s ≤ i ∧ i < e) ∨ (s2 ≤ i ∧ i < e2) → marked lines i = true) ∧
      cleanupRun lines = Outcome.written (newLines lines) := by
  refine ⟨?_, rfl⟩
  intro i hi
  rcases hi with ⟨h1, h2⟩ | ⟨h1, h2⟩
  · exact marked_of_inRange hr hscr h1 h2
  · exact marked_of_inRange hq hscq h1 h2

/-- Witness for C2 (amended) at the concrete input `exOverlap`. -/
theorem claim2_witness :
    (rule2 ∈ cleanupRules ∧ rule3 ∈ cleanupRules ∧
      scanRule rule2 exOverlap = some (0, 4) ∧ scanRule rule3 exOverlap = some (2, 4)) ∧
      (∀ i, (0 ≤ i ∧ i < 4) ∨ (2 ≤ i ∧ i < 4) → marked exOverlap i = true) ∧
      cleanupRun exOverlap = Outcome.written (newLines exOverlap) :=
  ⟨⟨by decide, by decide, by decide, by decide⟩,
    claim2_amended_thm exOverlap rule2 rule3 0 4 2 4
      (by decide) (by decide) (by decide) (by decide)⟩

/-- C3 counterexample: on `exRaBad` the replace-script marker search
succeeds (both indices resolved) with start index 61 and end index 60, so
the resolved range `[61, 61)` violates `start_index < end_index_exclusive`. -/
theorem claim3_counterexample :
    raScan exRaBad = (some 61, some 60) ∧ ¬(61 < 60 + 1) :=
  ⟨by decide, by omega⟩

/-- C3 (amended): every range resolved by the cleanup scanner satisfies
`0 ≤ start < end ≤ len(lines)` (indeed `end < len`), but the
replace-script scanner only guarantees `start < len(lines)` and
`end_exclusive < len(lines)`: because `end_line` is computed as `i - 2`,
the resolved end may precede the start. -/
theorem claim3_amended_thm :
    (∀ (r : MethodRule) (lines : List String) (s e : Nat),
      scanRule r lines = some (s, e) → s < e ∧ e < lines.length) ∧
      (∀ (lines : List String) (s e : Nat), raScan lines = (some s, some e) →
        s < lines.length ∧ e + 1 < lines.length) := by
  constructor
  · intro r lines s e h
    obtain ⟨h1, h2, _, _, _⟩ := scanRule_spec r lines s e h
    exact ⟨h1, h2⟩
  · intro lines s e h
    obtain ⟨h1, h2, _⟩ := raScan_spec lines s e h
    exact ⟨h1, h2⟩

/-- Witness for C3 (amended) at the concrete inputs `exUnique` and
`exRaGood`. -/
theorem claim3_witness :
    (scanRule rule2 exUnique = some (0, 2) ∧ 0 < 2 ∧ 2 < exUnique.length) ∧
      (raScan exRaGood = (some 0, some 59) ∧
        0 < exRaGood.length ∧ 59 + 1 < exRaGood.length) :=
  ⟨⟨by decide, by omega,
      (claim3_amended_thm.1 rule2 exUnique 0 2 (by decide)).2⟩,
   ⟨by decide,
      (claim3_amended_thm.2 exRaGood 0 59 (by decide)).1,
      (claim3_amended_thm.2 exRaGood 0 59 (by decide)).2⟩⟩

/-- C4 counterexample: on `exRaDup` the replace script resolves start 61 and
end 59 and writes an output of 68 lines from a 62-line input; the claimed
conservation formula predicts `62 - 0 + 5 = 67` lines (the resolved range
`[61, 60)` covers no line), so conservation fails: two input lines are
duplicated by the splice. -/
theorem claim4_counterexample :
    raScan exRaDup = (some 61, some 59) ∧
      raRun exRaDup = Outcome.written (raOut exRaDup 61 59) ∧
      (raOut exRaDup 61 59).length = 68 ∧
      exRaDup.length - (59 + 1 - 61) + raReplacement.length = 67 ∧
      (raOut exRaDup 61 59).length ≠ exRaDup.length - (59 + 1 - 61) + raReplacement.length :=
  ⟨by decide, by decide, by decide, by decide, by decide⟩

/-- C4 (amended): for the cleanup script, `len(output) = len(input) -`
(number of distinct marked indices) — equal to the sum of the deleted range
lengths exactly when the ranges are pairwise disjoint; for the replace
script the claimed formula `len(output) = len(input) - (end+1 - start) +
len(replacement)` holds whenever `start ≤ end + 1` (that is, whenever the
splice duplicates nothing). -/
theorem claim4_amended_thm :
    (∀ lines : List String, (newLines lines).length = lines.length - countMarked lines) ∧
      (∀ (lines : List String) (s e : Nat), raScan lines = (some s, some e) → s ≤ e + 1 →
        (raOut lines s e).length = lines.length - (e + 1 - s) + raReplacement.length) := by
  constructor
  · intro lines
    have h := filter_length_partition (fun i => marked lines i) (fun i => !marked lines i)
      (fun i => rfl) (List.range lines.length)
    unfold newLines countMarked
    rw [List.length_map]
    have hlen : (List.range lines.length).length = lines.length := List.length_range _
    omega
  · intro lines s e h hle
    obtain ⟨h1, h2, _⟩ := raScan_spec lines s e h
    unfold raOut
    rw [List.length_append, List.length_append, List.length_take, List.length_drop]
    omega

/-- Witness for C4 (amended) at the concrete inputs `exOverlap` and
`exRaGood`. -/
theorem claim4_witness :
    ((newLines exOverlap).length = exOverlap.length - countMarked exOverlap) ∧
      (raScan exRaGood = (some 0, some 59) ∧ 0 ≤ 59 + 1 ∧
        (raOut exRaGood 0 59).length =
          exRaGood.length - (59 + 1 - 0) + raReplacement.length) :=
  ⟨claim4_amended_thm.1 exOverlap,
   ⟨by decide, by omega, claim4_amended_thm.2 exRaGood 0 59 (by decide) (by omega)⟩⟩

/-- C5: frame property.  For the cleanup script the output is a subsequence
of the input (each kept line appears unchanged and in the original relative
order) and every line whose index is not in the removal set appears in the
output; the removal is computed against the fixed original index space
(`newLines` walks `range len` once).  For the replace script, the lines at
indices outside the resolved range `[s, e+1)` appear in the output unchanged
and in their original relative order (they form a sublist of the output). -/
theorem claim5_thm :
    (∀ lines : List String, List.Sublist (newLines lines) lines) ∧
      (∀ (lines : List String) (i : Nat), i < lines.length → marked lines i = false →
        lines.getD i "" ∈ newLines lines) ∧
      (∀ (lines : List String) (s e : Nat), raScan lines = (some s, some e) →
        List.Sublist (untouchedRa lines s (e + 1)) (raOut lines s e)) := by
  refine ⟨?_, ?_, ?_⟩
  · intro lines
    have h : List.Sublist
        (((List.range lines.length).filter (fun i => !marked lines i)).map
          (fun i => lines.getD i ""))
        ((List.range lines.length).map (fun i => lines.getD i "")) :=
      List.Sublist.map _ (List.filter_sublist _)
    rw [mapRange] at h
    exact h
  · intro lines i hi hm
    unfold newLines
    refine List.mem_map.mpr ⟨i, ?_, rfl⟩
    refine List.mem_filter.mpr ⟨List.mem_range.mpr hi, ?_⟩
    rw [hm]
    rfl
  · intro lines s e _
    unfold untouchedRa raOut
    rw [splitMap]
    rw [List.append_assoc]
    refine List.Sublist.append_left ?_ (lines.take s)
    have h1 : List.Sublist (lines.drop (max s (e + 1))) (lines.drop (e + 1)) :=
      List.drop_sublist_drop_left lines (Nat.le_max_right s (e + 1))
    exact h1.trans (List.sublist_append_right raReplacement (lines.drop (e + 1)))

/-- Witness for C5 at the concrete inputs `exOverlap` and `exRaGood`. -/
theorem claim5_witness :
    List.Sublist (newLines exOverlap) exOverlap ∧
      (4 < exOverlap.length ∧ marked exOverlap 4 = false ∧
        exOverlap.getD 4 "" ∈ newLines exOverlap) ∧
      (raScan exRaGood = (some 0, some 59) ∧
        List.Sublist (untouchedRa exRaGood 0 (59 + 1)) (raOut exRaGood 0 59)) :=
  ⟨claim5_thm.1 exOverlap,
   ⟨by decide, by decide, claim5_thm.2.1 exOverlap 4 (by decide) (by decide)⟩,
   ⟨by decide, claim5_thm.2.2 exRaGood 0 59 (by decide)⟩⟩

/-- C6 counterexample: on `exTwice` the LoadReferrersAsync start cue occurs
on two lines; the scanner resets its start to the second occurrence and the
delete removes only line 2, so after applying the delete the output still
contains a line holding the start cue, and re-running the scanner on the
output resolves a range — not "start not found". -/
theorem claim6_counterexample :
    scanRule rule2 exTwice = some (2, 3) ∧
      cleanupRun exTwice = Outcome.written (newLines exTwice) ∧
      pyIn rule2.startStr ((newLines exTwice).getD 0 "") = true ∧
      scanRule rule2 (newLines exTwice) = some (0, 2) :=
  ⟨by decide, by decide, by decide, by decide⟩

/-- C6 (amended): provided the construct's start cue occurs on exactly one
input line, applying the delete for a resolved range removes the construct
entirely: no output line holds the start cue, and re-running the boundary
scanner on the output reports start-not-found (resolves nothing).  When the
start cue occurs on several lines, the scanner resets its start to the last
occurrence and earlier occurrences survive the deletion. -/
theorem claim6_amended_thm (r : MethodRule) (lines : List String) (s e : Nat)
    (hr : r ∈ cleanupRules) (hscan : scanRule r lines = some (s, e))
    (huniq : ∀ j, j < lines.length → pyIn r.startStr (lines.getD j "") = true → j = s) :
    (∀ l1 ∈ newLines lines, pyIn r.startStr l1 = false) ∧
      scanRule r (newLines lines) = none := by
  obtain ⟨hse, helen, hpys, _, _⟩ := scanRule_spec r lines s e hscan
  have hms : marked lines s = true := marked_of_inRange hr hscan (Nat.le_refl s) hse
  have hall : ∀ l1 ∈ newLines lines, pyIn r.startStr l1 = false := by
    intro l1 hmem
    unfold newLines at hmem
    obtain ⟨i, hif, hieq⟩ := List.mem_map.mp hmem
    obtain ⟨hir, him⟩ := List.mem_filter.mp hif
    have hilen : i < lines.length := List.mem_range.mp hir
    by_contra hcon
    have hpy : pyIn r.startStr l1 = true := by
      revert hcon
      cases pyIn r.startStr l1 <;> simp
    rw [← hieq] at hpy
    have his : i = s := huniq i hilen hpy
    subst his
    rw [hms] at him
    exact absurd him (by decide)
  refine ⟨hall, ?_⟩
  unfold scanRule
  apply scanGo_none_of_noStart r (newLines lines) (newLines lines).length 0 (by omega)
  intro j hj
  have hmem : (newLines lines).getD j "" ∈ newLines lines := by
    rw [List.getD_eq_getElem _ _ hj]
    exact List.getElem_mem hj
  exact hall _ hmem

/-- Witness for C6 (amended) at the concrete input `exUnique`. -/
theorem claim6_witness :
    (rule2 ∈ cleanupRules ∧ scanRule rule2 exUnique = some (0, 2)) ∧
      (∀ l1 ∈ newLines exUnique, pyIn rule2.startStr l1 = false) ∧
      scanRule rule2 (newLines exUnique) = none :=
  ⟨⟨by decide, by decide⟩,
    claim6_amended_thm rule2 exUnique 0 2 (by decide) (by decide)
      (fun j hj hpy => by
        have hl : exUnique.length = 3 := by decide
        rw [hl] at hj
        interval_cases j
        · rfl
        · exact absurd hpy (by decide)
        · exact absurd hpy (by decide))⟩

/-- C7: the end predicate of the cleanup scanner accepts only lines that
begin a new declaration and do not mention the construct's own name; the
resolved end index is the first line after the start satisfying it, so the
scanner never terminates a region on a line re-mentioning its construct. -/
theorem claim7_thm (r : MethodRule) (lines : List String) (s e : Nat)
    (hscan : scanRule r lines = some (s, e)) :
    ruleEndPred r (lines.getD e "") = true ∧
      pyIn r.mname (lines.getD e "") = false ∧
      ∀ j, s < j → j < e → ruleEndPred r (lines.getD j "") = false := by
  obtain ⟨_, _, _, hend, hmid⟩ := scanRule_spec r lines s e hscan
  refine ⟨hend, ?_, hmid⟩
  unfold ruleEndPred at hend
  have h2 := ((Bool.and_eq_true ..).mp hend).2
  cases hpy : pyIn r.mname (lines.getD e "")
  · rfl
  · rw [hpy] at h2
    exact absurd h2 (by decide)

/-- Witness for C7 at the concrete input `exUnique`. -/
theorem claim7_witness :
    scanRule rule2 exUnique = some (0, 2) ∧
      (ruleEndPred rule2 (exUnique.getD 2 "") = true ∧
        pyIn rule2.mname (exUnique.getD 2 "") = false ∧
        ∀ j, 0 < j → j < 2 → ruleEndPred rule2 (exUnique.getD j "") = false) :=
  ⟨by decide, claim7_thm rule2 exUnique 0 2 (by decide)⟩

/-- C8: determinism.  Both pipelines are pure functions of the input line
list in this embedding — the scanners and editors never mutate the input —
so two runs on the same input produce the same outcome, byte for byte. -/
theorem claim8_thm :
    (∀ (lines : List String) (o1 o2 : Outcome),
      cleanupRun lines = o1 → cleanupRun lines = o2 → o1 = o2) ∧
      (∀ (lines : List String) (o1 o2 : Outcome),
        raRun lines = o1 → raRun lines = o2 → o1 = o2) :=
  ⟨fun _ _ _ h1 h2 => h1.symm.trans h2, fun _ _ _ h1 h2 => h1.symm.trans h2⟩

/-- Witness for C8 at the concrete inputs `exOverlap` and `exRaEarly`. -/
theorem claim8_witness :
    Outcome.written (newLines exOverlap) = Outcome.written (newLines exOverlap) ∧
      Outcome.exited 1 = Outcome.exited 1 :=
  ⟨claim8_thm.1 exOverlap _ _ rfl rfl,
   claim8_thm.2 exRaEarly _ _ (by decide) (by decide)⟩

/-- C9: when the pattern of `fix_mainview.py` does not match the content,
no error is raised, the file is still written, the written content equals
the original input, and the printed message is the same success message as
in a matching run. -/
theorem claim9_thm (find : String → Option Nat) (rewriteFn : String → String)
    (content : String) (h : find content = none) :
    fixMainviewRun find rewriteFn content = (content, successMessage) ∧
      ∀ c : String, (fixMainviewRun find rewriteFn c).2 = successMessage := by
  constructor
  · unfold fixMainviewRun reSub
    rw [h]
  · intro c
    rfl

/-- Witness for C9 with a concrete no-match finder and content. -/
theorem claim9_witness :
    ((fun s => if pyIn "<Grid" s then some 0 else (none : Option Nat)) "abc" = none) ∧
      (fixMainviewRun (fun s => if pyIn "<Grid" s then some 0 else none)
          (fun s => s ++ "x") "abc" = ("abc", successMessage) ∧
        ∀ c : String, (fixMainviewRun (fun s => if pyIn "<Grid" s then some 0 else none)
          (fun s => s ++ "x") c).2 = successMessage) :=
  ⟨by decide, claim9_thm _ _ "abc" (by decide)⟩

/-- C10: if the start marker occurs on some line but every line carrying the
row-2 comment sits at an index not above 60, the replace script reports that
the markers could not be found and exits with status 1 before any write. -/
theorem claim10_thm (lines : List String) (i0 : Nat)
    (_hi : i0 < lines.length)
    (_hstart : pyIn startMarker (lines.getD i0 "") = true)
    (hrow : ∀ j, j < lines.length → pyIn rowMarker (lines.getD j "") = true → j ≤ 60) :
    raRun lines = Outcome.exited 1 := by
  have hnone : (raScan lines).2 = none := by
    unfold raScan
    apply raGo_end_none
    intro j hj
    rcases Nat.lt_or_ge j lines.length with hlt | hge
    · have := hrow j hlt hj
      omega
    · rw [List.getD_eq_default _ _ hge] at hj
      exact absurd hj (by decide)
  unfold raRun
  rcases hsc : raScan lines with ⟨a, b⟩
  rw [hsc] at hnone
  simp only at hnone
  subst hnone
  cases a <;> rfl

/-- Witness for C10 at the concrete input `exRaEarly`. -/
theorem claim10_witness :
    (0 < exRaEarly.length ∧ pyIn startMarker (exRaEarly.getD 0 "") = true) ∧
      raRun exRaEarly = Outcome.exited 1 :=
  ⟨⟨by decide, by decide⟩,
    claim10_thm exRaEarly 0 (by decide) (by decide)
      (fun j hj _ => by
        have hl : exRaEarly.length = 2 := by decide
        rw [hl] at hj
        omega)⟩

end OrasDesktopScripts
